import Mathlib

/-!
Verification of the Monte Carlo DCF simulator (dn-nuniv/dcf-tool).

Shallow embedding of `src/script.js` (the primary variant; `src/unnamed/part_000`
is an earlier variant of the same script and `src/unnamed/part_001` the README).

Modelling conventions:
* JavaScript numbers are modelled by exact rationals (`ℚ`) for user inputs and by
  an arbitrary `LinearOrderedField K` (instantiated at `ℚ` and `ℝ`) for the
  computations that mix inputs with sampled values.  IEEE rounding is not
  modelled; overflow to `±Infinity` of an exactly-finite value is likewise out of
  scope.  Division by zero — the one source of `±Infinity`/`NaN` that the exact
  semantics can see — is modelled by `Option`: `none` stands for a non-finite
  result, which the code's `Number.isFinite` filter rejects.
* The mulberry32 PRNG state and outputs are modelled as naturals mod 2^32; all
  JavaScript 32-bit operations (`>>>`, `|`, `^`, `Math.imul`, `|0`) are congruent
  mod 2^32 to the corresponding `Nat` operations used here.
* `Math.random` (the unseeded entropy source) is modelled as an ambient stream
  `Nat → ℝ` supplied to the driver; a seeded run ignores it.
-/

/-- JS `>>> 0` (ToUint32): reduce mod 2^32. -/
def toUint32 (n : Nat) : Nat := n % 4294967296

/-- JS `| 0` (ToInt32): wrap to a signed 32-bit integer. -/
def toInt32 (n : Int) : Int := (n + 2147483648) % 4294967296 - 2147483648

/-- One call of the closure returned by `mulberry32` (script.js:21-28):
`var t = a += 0x6D2B79F5; t = Math.imul(t ^ (t >>> 15), t | 1);
 t ^= t + Math.imul(t ^ (t >>> 7), t | 61); return ((t ^ (t >>> 14)) >>> 0) / 2^32`.
Returns the updated state and the 32-bit output (before division by 2^32).
0x6D2B79F5 = 1831565813. -/
def mulberry32 (a : Nat) : Nat × Nat :=
  let a2 := toUint32 (a + 1831565813)
  let t1 := toUint32 ((a2 ^^^ (a2 >>> 15)) * (a2 ||| 1))
  let t2 := t1 ^^^ toUint32 (t1 + toUint32 ((t1 ^^^ (t1 >>> 7)) * (t1 ||| 61)))
  (a2, toUint32 (t2 ^^^ (t2 >>> 14)))

/-- State of the mulberry32 generator after `n` calls, starting from `seed`. -/
def mulberryState (seed : Nat) : Nat → Nat
  | 0 => seed
  | n + 1 => (mulberry32 (mulberryState seed n)).1

/-- The `n`-th 32-bit output of the seeded generator. -/
def mulberryOut (seed n : Nat) : Nat := (mulberry32 (mulberryState seed n)).2

/-- The `n`-th uniform deviate of the seeded generator: output / 2^32. -/
def mulberryDeviate (seed n : Nat) : ℚ := (mulberryOut seed n : ℚ) / 4294967296

/-- One step of the seed-string hash (script.js:300-305):
`seedInt = ((seedInt << 5) - seedInt) + str.charCodeAt(i); seedInt |= 0`. -/
def hashSeedStep (h : Int) (c : Nat) : Int := toInt32 (toInt32 (h * 32) - h + c)

/-- Hash of a seed string (list of char codes) to a signed 32-bit integer. -/
def hashSeed (s : List Nat) : Int := s.foldl hashSeedStep 0

/-- The hashed seed as the (mod 2^32) initial mulberry32 state. -/
def seedState (s : List Nat) : Nat := (hashSeed s % 4294967296).toNat

/-- Triangular-distribution sampler (script.js:38-47).  `u` is the uniform
deviate drawn from the RNG.  In JS, when `min = max`, `c` is `NaN` (0/0) and the
comparison `u < c` is false; here `c` is the junk value `0` and `u < 0` is false
for every deviate `u ≥ 0`, so both semantics take the `else` branch. -/
noncomputable def triRandom (min mode max u : ℝ) : ℝ :=
  let c := (mode - min) / (max - min)
  if u < c then min + Real.sqrt (u * (max - min) * (mode - min))
  else max - Real.sqrt ((1 - u) * (max - min) * (max - mode))


section Stats

variable {K : Type} [LinearOrderedField K]

/-- `mean(arr)` (script.js:52-55): arithmetic mean, `0` for the empty array. -/
def mean (arr : List K) : K :=
  if arr = [] then 0 else arr.sum / (arr.length : K)

/-- `percentile(sortedArr, p)` (script.js:62-71): linear interpolation between
order statistics at fractional rank `(n-1)*p`. -/
def percentile [FloorRing K] (sortedArr : List K) (p : K) : K :=
  if sortedArr = [] then 0 else
  let index := ((sortedArr.length : K) - 1) * p
  let lower := ⌊index⌋
  let upper := ⌈index⌉
  let weight := index - (lower : K)
  if (sortedArr.length : ℤ) ≤ upper then sortedArr.getD lower.toNat 0
  else sortedArr.getD lower.toNat 0 * (1 - weight) + sortedArr.getD upper.toNat 0 * weight

/-- `probAbove(sortedArr, threshold)` (script.js:76-82): percentage of samples
strictly greater than the threshold, by a full scan (`filter`). -/
def probAbove (sortedArr : List K) (threshold : K) : K :=
  if sortedArr = [] then 0
  else (((sortedArr.filter (fun v => threshold < v)).length : K) / (sortedArr.length : K)) * 100

/-- The `while (lo < hi)` loop of `firstGreaterIndex` (script.js:201-212). -/
def firstGreaterLoop (sortedArr : List K) (value : K) (lo hi : Nat) : Nat :=
  if lo < hi then
    let mid := (lo + hi) / 2
    if sortedArr.getD mid 0 ≤ value then firstGreaterLoop sortedArr value (mid + 1) hi
    else firstGreaterLoop sortedArr value lo mid
  else lo
termination_by hi - lo
decreasing_by
  · omega
  · omega

/-- `firstGreaterIndex(sortedArr, value)` (script.js:201-212): binary search for
the first index whose element exceeds `value` (or `length` if none). -/
def firstGreaterIndex (sortedArr : List K) (value : K) : Nat :=
  firstGreaterLoop sortedArr value 0 sortedArr.length


end Stats

section Pricing

variable {K : Type} [LinearOrderedField K]

/-- JS division whose result feeds a `Number.isFinite` check: division by zero
produces `±Infinity`/`NaN` (non-finite), modelled as `none`. -/
def jsDiv (a b : K) : Option K := if b = 0 then none else some (a / b)

/-- The `sumPv` loop of the detailed (future) mode (script.js:341-344):
`sumPv += futureFcfInputs[j] / Math.pow(1 + r, j + 1)`, with `j` starting at
the given index.  `none` when some denominator `(1+r)^(j+1)` is zero. -/
def pvSum (r : K) : List K → Nat → Option K
  | [], _ => some 0
  | cf :: rest, j => do
      let t ← jsDiv cf ((1 + r) ^ (j + 1))
      let s ← pvSum r rest (j + 1)
      pure (t + s)

/-- The inputs the per-trial pricing formula depends on (a slice of the
validated `params` of `runSimulation`, with `fcf0` and `netDebt` already
derived once per run as in script.js:264-273). -/
structure PriceInputs (K : Type) where
  calcModeFuture : Bool
  futureFcfInputs : List K
  fcf0 : K
  netDebt : K
  shares : K

/-- The pricing formula evaluated inside the Monte Carlo loop
(script.js:338-356); the same arithmetic appears verbatim in `calcModePrice`
(script.js:165-193).  `none` models a non-finite JS result. -/
def priceCore (P : PriceInputs K) (g r : K) : Option K :=
  if P.calcModeFuture then
    match P.futureFcfInputs.getLast? with
    | none => none
    | some fcf5 => do
        let sumPv ← pvSum r P.futureFcfInputs 0
        let tv ← jsDiv (fcf5 * (1 + g)) (r - g)
        let tvPv ← jsDiv tv ((1 + r) ^ P.futureFcfInputs.length)
        jsDiv (sumPv + tvPv - P.netDebt) P.shares
  else do
    let tv ← jsDiv (P.fcf0 * (1 + g)) (r - g)
    jsDiv (tv - P.netDebt) P.shares

/-- One trial of the forward Monte Carlo loop (script.js:325-361): the trial is
discarded (`none`) when `r - g ≤ 0.0001`, and otherwise its price is kept only
when finite. -/
def trialResult (P : PriceInputs K) (g r : K) : Option K :=
  if r - g ≤ 1 / 10000 then none else priceCore P g r

/-- The sample buffer built by the forward loop from the sampled `(g, r)`
pairs: only valid trial results are appended (script.js:358-360). -/
def buildBuffer (P : PriceInputs K) (pairs : List (K × K)) : List K :=
  pairs.filterMap (fun gr => trialResult P gr.1 gr.2)

/-- `calcModePrice` (script.js:165-193): the deterministic price at
`(g, r) = (gMode, rMode or rFixed)`; `NaN` (here `none`) when `r - g ≤ 0`. -/
def calcModePrice (P : PriceInputs K) (g r : K) : Option K :=
  if r - g ≤ 0 then none else priceCore P g r

end Pricing

/-- `calcFcf0(cfoArr, cfiArr, method)` (script.js:147-163): free cash flows are
`cfo - cfi` pairwise; the base FCF is their simple mean (`avg`) or the
`1..N`-weighted mean. -/
def calcFcf0 (cfoArr cfiArr : List ℚ) (weighted : Bool) : ℚ :=
  let fcfArr := List.zipWith (fun cfo cfi => cfo - cfi) cfoArr cfiArr
  let ws : List Nat := (List.range fcfArr.length).map (fun i => i + 1)
  if weighted then
    (List.zipWith (fun v w => v * ((w : Nat) : ℚ)) fcfArr ws).sum / ((ws.sum : Nat) : ℚ)
  else mean fcfArr

/-- The validated numeric inputs of a run (`getInputs`, script.js:102-145).
The seed string is carried as its list of UTF-16 char codes; `[]` is the empty
seed (JS falsy), in which case `Math.random` is used. -/
structure SimInputs where
  calcModeFuture : Bool
  cfoInputs : List ℚ
  cfiInputs : List ℚ
  fcfWeighted : Bool
  futureFcfInputs : List ℚ
  gMin : ℚ
  gMode : ℚ
  gMax : ℚ
  rFixedCheck : Bool
  rMin : ℚ
  rMode : ℚ
  rMax : ℚ
  rFixed : ℚ
  debt : ℚ
  cash : ℚ
  shares : ℚ
  currentPrice : ℚ
  iterations : Nat
  seed : List Nat

/-- The range/positivity validation of `runSimulation` (script.js:243-262):
`shares > 0`, `gMin ≤ gMode ≤ gMax`, and `rMin ≤ rMode ≤ rMax` unless the
discount rate is fixed.  (The `isNaN` well-formedness checks have no
counterpart for exact rationals.) -/
def validInputs (p : SimInputs) : Bool :=
  decide (0 < p.shares) && decide (p.gMin ≤ p.gMode) && decide (p.gMode ≤ p.gMax)
    && (p.rFixedCheck || (decide (p.rMin ≤ p.rMode) && decide (p.rMode ≤ p.rMax)))

/-- `fcf0` as derived once per forward run (script.js:264-271): historical mean
in historical mode, the last forecast year in future mode. -/
def forwardFcf0 (p : SimInputs) : ℚ :=
  if p.calcModeFuture then p.futureFcfInputs.getLastD 0
  else calcFcf0 p.cfoInputs p.cfiInputs p.fcfWeighted

/-- The pricing slice of the inputs, cast into the computation field. -/
def simPriceInputs (K : Type) [LinearOrderedField K] (p : SimInputs) : PriceInputs K :=
  { calcModeFuture := p.calcModeFuture
    futureFcfInputs := p.futureFcfInputs.map (fun q => (q : K))
    fcf0 := ((forwardFcf0 p : ℚ) : K)
    netDebt := ((p.debt - p.cash : ℚ) : K)
    shares := ((p.shares : ℚ) : K) }

/-- The RNG used by a run (script.js:296-308): the mulberry32 stream seeded by
the hashed seed string when a seed is given, the host entropy source
(`Math.random`) otherwise. -/
noncomputable def rngStream (seed : List Nat) (entropy : Nat → ℝ) : Nat → ℝ :=
  if seed = [] then entropy
  else fun n => ((mulberryDeviate (seedState seed) n : ℚ) : ℝ)

/-- The `(g, r)` pair sampled by forward trial `i` (script.js:326-332): `g` is
drawn first; `r` is the fixed rate or a second draw. -/
noncomputable def forwardPair (p : SimInputs) (dev : Nat → ℝ) (i : Nat) : ℝ × ℝ :=
  if p.rFixedCheck then
    (triRandom (p.gMin : ℝ) (p.gMode : ℝ) (p.gMax : ℝ) (dev i), (p.rFixed : ℝ))
  else
    (triRandom (p.gMin : ℝ) (p.gMode : ℝ) (p.gMax : ℝ) (dev (2 * i)),
     triRandom (p.rMin : ℝ) (p.rMode : ℝ) (p.rMax : ℝ) (dev (2 * i + 1)))

/-- All `iterations` sampled pairs of a forward run. -/
noncomputable def forwardPairs (p : SimInputs) (dev : Nat → ℝ) : List (ℝ × ℝ) :=
  (List.range p.iterations).map (forwardPair p dev)

section Sorting

variable {K : Type} [LinearOrderedField K]

/-- Insertion into an ascending list (model of the numeric `sort()` of the
valid-price buffer, script.js:386). -/
def insertSorted (x : K) : List K → List K
  | [] => [x]
  | y :: l => if x ≤ y then x :: y :: l else y :: insertSorted x l

/-- Ascending sort of the sample buffer. -/
def sortAsc : List K → List K
  | [] => []
  | x :: l => insertSorted x (sortAsc l)

end Sorting

/-- The statistics block of a completed forward run (script.js:389-411 and the
stored `lastSimulationParams`). -/
structure Summary (K : Type) where
  meanPrice : K
  medianPrice : K
  p05 : K
  p95 : K
  prob : K
  modePrice : Option K
  modePercentile : Option K
  currentPercentile : K

/-- The summary computed from the ascending-sorted valid-price buffer
(script.js:389-411): mean by reduction, median/p05/p95 by direct order-statistic
indexing at `⌊n/2⌋`, `⌊0.05·n⌋`, `⌊0.95·n⌋`, probability above the current
price and the two percentile ranks via `firstGreaterIndex`. -/
def mkSummary {K : Type} [LinearOrderedField K] [FloorRing K] (P : PriceInputs K)
    (modeG modeR currentPrice : K) (prices : List K) : Summary K :=
  let n : K := (prices.length : K)
  let idxGtCurrent := firstGreaterIndex prices currentPrice
  let modePrice := calcModePrice P modeG modeR
  { meanPrice := prices.sum / n
    medianPrice := prices.getD (prices.length / 2) 0
    p05 := prices.getD (⌊n * (5 / 100)⌋).toNat 0
    p95 := prices.getD (⌊n * (95 / 100)⌋).toNat 0
    prob := (n - (idxGtCurrent : K)) / n * 100
    modePrice := modePrice
    modePercentile := modePrice.map (fun mp => ((firstGreaterIndex prices mp : K) / n) * 100)
    currentPercentile := ((idxGtCurrent : K) / n) * 100 }

/-- Result of a forward run: refused inputs, the dedicated zero-valid-trials
condition (script.js:380-383), or the sorted buffer with its summary. -/
inductive RunOutcome (K : Type) where
  | invalidInput : RunOutcome K
  | zeroValid : RunOutcome K
  | ok : List K → Summary K → RunOutcome K

/-- The forward Monte Carlo driver `runSimulation` (script.js:216-442),
restricted to its simulation/statistics content: validate, build the RNG
stream, run the trials, and report either the zero-valid-trials condition or
the sorted buffer plus summary. -/
noncomputable def runSimulationR (p : SimInputs) (entropy : Nat → ℝ) : RunOutcome ℝ :=
  if validInputs p = false then RunOutcome.invalidInput
  else
    let dev := rngStream p.seed entropy
    let P : PriceInputs ℝ := simPriceInputs ℝ p
    let buf := buildBuffer P (forwardPairs p dev)
    if buf = [] then RunOutcome.zeroValid
    else
      let prices := sortAsc buf
      RunOutcome.ok prices
        (mkSummary P (p.gMode : ℝ)
          (if p.rFixedCheck then (p.rFixed : ℝ) else (p.rMode : ℝ))
          (p.currentPrice : ℝ) prices)

/-- The observed market enterprise value (script.js:1007):
`EV_market = currentPrice * shares + (debt - cash)`. -/
def evMarket (p : SimInputs) : ℚ := p.currentPrice * p.shares + (p.debt - p.cash)

/-- The base FCF the reverse driver uses (script.js:979): always recomputed
from the historical inputs, regardless of the active calculation mode. -/
def impliedFcf0 (p : SimInputs) : ℚ := calcFcf0 p.cfoInputs p.cfiInputs p.fcfWeighted

section Implied

variable {K : Type} [LinearOrderedField K]

/-- The two per-trial sequences of the reverse loop (script.js:1030-1043):
for every sampled pair, `impliedFcf = EV * (r - g)` and
`impliedG = r - fcf0 / EV`, recorded unconditionally. -/
def runImpliedCore (fcf0 EV : K) (pairs : List (K × K)) : List K × List K :=
  (pairs.map (fun gr => EV * (gr.2 - gr.1)),
   pairs.map (fun gr => gr.2 - fcf0 / EV))

/-- The reverse driver's sample production (script.js:1007-1050): the
`EV_market ≤ 0` precondition is checked once before the loop and the run
records nothing when it fails. -/
def runImplied (fcf0 EV : K) (pairs : List (K × K)) : Option (List K × List K) :=
  if EV ≤ 0 then none else some (runImpliedCore fcf0 EV pairs)

end Implied

/-- The `(g, r)` pair sampled by reverse trial `i` (script.js:1031-1034): `r`
is drawn first (fixed rate draws nothing), then `g`. -/
noncomputable def impliedPair (p : SimInputs) (dev : Nat → ℝ) (i : Nat) : ℝ × ℝ :=
  if p.rFixedCheck then
    (triRandom (p.gMin : ℝ) (p.gMode : ℝ) (p.gMax : ℝ) (dev i), (p.rFixed : ℝ))
  else
    (triRandom (p.gMin : ℝ) (p.gMode : ℝ) (p.gMax : ℝ) (dev (2 * i + 1)),
     triRandom (p.rMin : ℝ) (p.rMode : ℝ) (p.rMax : ℝ) (dev (2 * i)))

/-- All `iterations` sampled pairs of a reverse run. -/
noncomputable def impliedPairs (p : SimInputs) (dev : Nat → ℝ) : List (ℝ × ℝ) :=
  (List.range p.iterations).map (impliedPair p dev)

/-- The reverse Monte Carlo driver `runImpliedSimulation` (script.js:977-1096),
restricted to its sample production. -/
noncomputable def runImpliedSimulationR (p : SimInputs) (entropy : Nat → ℝ) :
    Option (List ℝ × List ℝ) :=
  runImplied ((impliedFcf0 p : ℚ) : ℝ) ((evMarket p : ℚ) : ℝ)
    (impliedPairs p (rngStream p.seed entropy))

/-- Concrete inputs for the §8 round-trip scenario: historical mode with base
FCF 100 (one year of `cfo = 100`, `capex = 0`), fixed discount rate `0.10`,
growth mode `0.05`, no net debt, 100 shares, current price 21. -/
def roundTripInputs : SimInputs :=
  { calcModeFuture := false
    cfoInputs := [100]
    cfiInputs := [0]
    fcfWeighted := false
    futureFcfInputs := []
    gMin := 5 / 100
    gMode := 5 / 100
    gMax := 5 / 100
    rFixedCheck := true
    rMin := 0
    rMode := 0
    rMax := 0
    rFixed := 10 / 100
    debt := 0
    cash := 0
    shares := 100
    currentPrice := 21
    iterations := 1
    seed := [] }

/-- The round-trip inputs with the seed string set to `"AB"` (char codes). -/
def seededInputs : SimInputs :=
  { roundTripInputs with seed := [65, 66] }

/-- The §8 zero-valid-trials scenario: `g ~ Tri(0.08, 0.10, 0.12)` against a
fixed discount rate of `0.05`. -/
def zeroValidInputs : SimInputs :=
  { roundTripInputs with
      gMin := 8 / 100
      gMode := 10 / 100
      gMax := 12 / 100
      rFixed := 5 / 100 }

/-! ### Helper theorems -/

theorem toUint32_lt (n : Nat) : toUint32 n < 4294967296 :=
  Nat.mod_lt _ (by decide)

theorem mulberryOut_lt (seed n : Nat) : mulberryOut seed n < 4294967296 :=
  toUint32_lt _

theorem mulberryDeviate_nonneg (seed n : Nat) : 0 ≤ mulberryDeviate seed n := by
  unfold mulberryDeviate
  positivity

theorem mulberryDeviate_lt_one (seed n : Nat) : mulberryDeviate seed n < 1 := by
  unfold mulberryDeviate
  rw [div_lt_one (by norm_num)]
  exact_mod_cast mulberryOut_lt seed n


/-- `triRandom` stays inside `[min, max]` (used by several claims). -/
theorem triRandom_mem (min mode max u : ℝ) (h1 : min ≤ mode) (h2 : mode ≤ max)
    (h3 : min < max) (hu0 : 0 ≤ u) (hu1 : u < 1) :
    triRandom min mode max u ∈ Set.Icc min max := by
  have hmm : (0:ℝ) ≤ max - min := by linarith
  have hmo : (0:ℝ) ≤ mode - min := by linarith
  have hom : (0:ℝ) ≤ max - mode := by linarith
  dsimp only [triRandom]
  split
  · constructor
    · have := Real.sqrt_nonneg (u * (max - min) * (mode - min))
      linarith
    · have harg : u * (max - min) * (mode - min) ≤ (max - min) ^ 2 := by
        have h4 : u * (max - min) ≤ 1 * (max - min) :=
          mul_le_mul_of_nonneg_right (le_of_lt hu1) hmm
        have h5 : u * (max - min) * (mode - min) ≤ (max - min) * (max - min) := by
          have := mul_le_mul (by linarith : u * (max - min) ≤ max - min)
            (by linarith : mode - min ≤ max - min) hmo hmm
          linarith
        nlinarith
      have := Real.sqrt_le_sqrt harg
      have hss : Real.sqrt ((max - min) ^ 2) = max - min := Real.sqrt_sq hmm
      linarith [this, hss.le, hss.ge]
  · constructor
    · have harg : (1 - u) * (max - min) * (max - mode) ≤ (max - min) ^ 2 := by
        have h4 : (1 - u) * (max - min) ≤ 1 * (max - min) :=
          mul_le_mul_of_nonneg_right (by linarith) hmm
        have h5 : (1 - u) * (max - min) * (max - mode) ≤ (max - min) * (max - min) := by
          have := mul_le_mul (by linarith : (1 - u) * (max - min) ≤ max - min)
            (by linarith : max - mode ≤ max - min) hom hmm
          linarith
        nlinarith
      have := Real.sqrt_le_sqrt harg
      have hss : Real.sqrt ((max - min) ^ 2) = max - min := Real.sqrt_sq hmm
      linarith [this, hss.le, hss.ge]
    · have := Real.sqrt_nonneg ((1 - u) * (max - min) * (max - mode))
      linarith

section StatsLemmas

variable {K : Type} [LinearOrderedField K]

/-- In an ascending-sorted list, position `k` holds an element `≤ v` exactly when
`k` is below the count of elements `≤ v`. -/
theorem sorted_getD_le_iff (arr : List K) (v : K) (hs : List.Sorted (· ≤ ·) arr) :
    ∀ k, k < arr.length → (arr.getD k 0 ≤ v ↔ k < arr.countP (fun x => x ≤ v)) := by
  induction arr with
  | nil => intro k hk; simp at hk
  | cons a l ih =>
    have hsl : List.Sorted (· ≤ ·) l := hs.of_cons
    have hal : ∀ x ∈ l, a ≤ x := fun x hx => (List.sorted_cons.mp hs).1 x hx
    intro k hk
    by_cases ha : a ≤ v
    · have hc1 : (a :: l).countP (fun x => x ≤ v) = l.countP (fun x => x ≤ v) + 1 := by
        rw [List.countP_cons]
        simp [ha]
      cases k with
      | zero =>
        rw [List.getD_cons_zero, hc1]
        exact ⟨fun _ => by omega, fun _ => ha⟩
      | succ k =>
        have hk2 : k < l.length := by simpa using hk
        have := ih hsl k hk2
        rw [List.getD_cons_succ, hc1]
        constructor
        · intro h; have := this.mp h; omega
        · intro h; exact this.mpr (by omega)
    · have hcl : l.countP (fun x => x ≤ v) = 0 := by
        rw [List.countP_eq_zero]
        intro x hx
        simp only [decide_eq_true_eq]
        intro hxv
        exact ha (le_trans (hal x hx) hxv)
      have hc0 : (a :: l).countP (fun x => x ≤ v) = 0 := by
        rw [List.countP_cons, hcl]
        simp [ha]
      cases k with
      | zero =>
        rw [List.getD_cons_zero, hc0]
        exact ⟨fun h => absurd h ha, fun h => by omega⟩
      | succ k =>
        have hk2 : k < l.length := by simpa using hk
        have hmem : l.getD k 0 ∈ l := by
          rw [List.getD_eq_getElem l 0 hk2]
          exact List.getElem_mem hk2
        rw [List.getD_cons_succ, hc0]
        exact ⟨fun h => absurd (le_trans (hal _ hmem) h) ha, fun h => by omega⟩

/-- The binary-search loop computes the number of elements `≤ value` in an
ascending-sorted list, given loop invariants on `lo` and `hi`. -/
theorem firstGreaterLoop_eq (arr : List K) (v : K) (hs : List.Sorted (· ≤ ·) arr)
    (lo hi : Nat) (hhi : hi ≤ arr.length)
    (hlo : lo ≤ arr.countP (fun x => x ≤ v)) (hc : arr.countP (fun x => x ≤ v) ≤ hi) :
    firstGreaterLoop arr v lo hi = arr.countP (fun x => x ≤ v) := by
  rw [firstGreaterLoop]
  split
  · next h =>
    by_cases hmid : arr.getD ((lo + hi) / 2) 0 ≤ v
    · have hmlt : (lo + hi) / 2 < arr.length := by omega
      have := (sorted_getD_le_iff arr v hs _ hmlt).mp hmid
      simp only [hmid, if_true]
      exact firstGreaterLoop_eq arr v hs ((lo + hi) / 2 + 1) hi hhi (by omega) hc
    · have hmlt : (lo + hi) / 2 < arr.length := by omega
      have hnot : ¬ ((lo + hi) / 2 < arr.countP (fun x => x ≤ v)) := fun hcon =>
        hmid ((sorted_getD_le_iff arr v hs _ hmlt).mpr hcon)
      simp only [hmid, if_false]
      exact firstGreaterLoop_eq arr v hs lo ((lo + hi) / 2) (by omega) hlo (by omega)
  · next h => omega
termination_by hi - lo
decreasing_by
  · omega
  · omega

/-- `firstGreaterIndex` on a sorted list equals the count of elements `≤ value`. -/
theorem firstGreaterIndex_eq_countP (arr : List K) (v : K)
    (hs : List.Sorted (· ≤ ·) arr) :
    firstGreaterIndex arr v = arr.countP (fun x => x ≤ v) :=
  firstGreaterLoop_eq arr v hs 0 arr.length le_rfl (Nat.zero_le _) (List.countP_le_length _)

end StatsLemmas

/-! ### Claims -/

/-- C4: for every triangular parameter triple with `min ≤ mode ≤ max` and
`min < max` and every uniform deviate `u ∈ [0, 1)`, `triRandom` returns a value
in the closed interval `[min, max]`; and every output of the seeded uniform
generator lies in `[0, 1)`. -/
theorem claim4_sampler_bounds :
    (∀ min mode max u : ℝ, min ≤ mode → mode ≤ max → min < max → 0 ≤ u → u < 1 →
      triRandom min mode max u ∈ Set.Icc min max) ∧
    (∀ seed n : Nat, mulberryDeviate seed n ∈ Set.Ico (0 : ℚ) 1) :=
  ⟨fun min mode max u h1 h2 h3 hu0 hu1 => triRandom_mem min mode max u h1 h2 h3 hu0 hu1,
   fun seed n => ⟨mulberryDeviate_nonneg seed n, mulberryDeviate_lt_one seed n⟩⟩

theorem claim4_sampler_bounds_witness :
    triRandom 0 1 1 0 ∈ Set.Icc (0 : ℝ) 1 ∧ mulberryDeviate 2081 0 ∈ Set.Ico (0 : ℚ) 1 :=
  ⟨claim4_sampler_bounds.1 0 1 1 0 zero_le_one le_rfl zero_lt_one le_rfl zero_lt_one,
   claim4_sampler_bounds.2 2081 0⟩

/-- C5: for every degenerate triangular triple `min = mode = max = m` and every
uniform deviate `u ∈ [0, 1)`, `triRandom` returns exactly the constant `m` —
never `NaN`.  (In JS the `else` branch returns `m - Math.sqrt(0) = m`; in this
exact model the same branch is taken and no non-number value exists.) -/
theorem claim5_degenerate_triangular (m u : ℝ) (hu0 : 0 ≤ u) (hu1 : u < 1) :
    triRandom m m m u = m := by
  dsimp only [triRandom]
  rw [sub_self, zero_div, if_neg (not_lt.mpr hu0)]
  rw [mul_zero, Real.sqrt_zero, sub_zero]

theorem claim5_degenerate_triangular_witness : triRandom 5 5 5 0 = 5 :=
  claim5_degenerate_triangular 5 0 le_rfl zero_lt_one

/-- C1: every price in the forward sample buffer comes from a sampled pair with
`r - g > 1e-4` whose computed price is finite (`priceCore = some`); and a trial
with `r - g ≤ 1e-4`, or whose price is non-finite (`priceCore = none`), appends
nothing to the buffer. -/
theorem claim1_buffer_filter {K : Type} [LinearOrderedField K]
    (P : PriceInputs K) (pairs : List (K × K)) :
    (∀ x ∈ buildBuffer P pairs,
      ∃ gr ∈ pairs, 1 / 10000 < gr.2 - gr.1 ∧ priceCore P gr.1 gr.2 = some x) ∧
    (∀ gr : K × K, gr.2 - gr.1 ≤ 1 / 10000 ∨ priceCore P gr.1 gr.2 = none →
      ∀ rest : List (K × K), buildBuffer P (gr :: rest) = buildBuffer P rest) := by
  constructor
  · intro x hx
    obtain ⟨gr, hgr, htr⟩ := List.mem_filterMap.mp hx
    refine ⟨gr, hgr, ?_⟩
    unfold trialResult at htr
    by_cases hle : gr.2 - gr.1 ≤ 1 / 10000
    · rw [if_pos hle] at htr
      exact absurd htr (by simp)
    · rw [if_neg hle] at htr
      exact ⟨lt_of_not_le hle, htr⟩
  · intro gr hbad rest
    have hnone : trialResult P gr.1 gr.2 = none := by
      unfold trialResult
      rcases hbad with h | h
      · rw [if_pos h]
      · by_cases hle : gr.2 - gr.1 ≤ 1 / 10000
        · rw [if_pos hle]
        · rw [if_neg hle]; exact h
    unfold buildBuffer
    exact List.filterMap_cons_none hnone

theorem claim1_buffer_filter_witness :
    (21 : ℚ) ∈ buildBuffer (simPriceInputs ℚ roundTripInputs) [(5 / 100, 10 / 100)] ∧
    (∃ gr ∈ [((5 : ℚ) / 100, (10 : ℚ) / 100)],
      1 / 10000 < gr.2 - gr.1 ∧ priceCore (simPriceInputs ℚ roundTripInputs) gr.1 gr.2 = some 21) :=
  ⟨by norm_num [buildBuffer, trialResult, priceCore, jsDiv, simPriceInputs, forwardFcf0,
      calcFcf0, mean, roundTripInputs, List.filterMap],
   (claim1_buffer_filter (simPriceInputs ℚ roundTripInputs) [(5 / 100, 10 / 100)]).1
     21 (by norm_num [buildBuffer, trialResult, priceCore, jsDiv, simPriceInputs, forwardFcf0,
      calcFcf0, mean, roundTripInputs, List.filterMap])⟩

/-- C8: on an ascending-sorted non-empty buffer, the binary-search computation
`100 * (n - firstGreaterIndex(buf, t)) / n` used by the driver
(script.js:396-397) agrees with the full-scan `probAbove` (script.js:76-82):
both equal the percentage of samples strictly greater than the threshold. -/
theorem claim8_prob_above_refinement {K : Type} [LinearOrderedField K]
    (sortedArr : List K) (threshold : K)
    (hs : List.Sorted (· ≤ ·) sortedArr) (hne : sortedArr ≠ []) :
    ((sortedArr.length : K) - (firstGreaterIndex sortedArr threshold : K))
        / (sortedArr.length : K) * 100
      = probAbove sortedArr threshold := by
  rw [firstGreaterIndex_eq_countP sortedArr threshold hs, probAbove, if_neg hne]
  have hsplit := List.length_eq_countP_add_countP (fun x => x ≤ threshold) sortedArr
  have hcongr : sortedArr.countP (fun a => decide ¬(decide (a ≤ threshold) = true))
      = (sortedArr.filter (fun v => threshold < v)).length := by
    rw [← List.countP_eq_length_filter]
    refine List.countP_congr ?_
    intro x _
    simp [not_le]
  have hcnt : sortedArr.countP (fun x => x ≤ threshold) ≤ sortedArr.length :=
    List.countP_le_length _
  have hlen : (sortedArr.filter (fun v => threshold < v)).length
      = sortedArr.length - sortedArr.countP (fun x => x ≤ threshold) := by omega
  rw [hlen]
  rw [Nat.cast_sub hcnt]

theorem claim8_prob_above_refinement_witness :
    (((([1, 2, 2, 3] : List ℚ).length : ℚ) - (firstGreaterIndex ([1, 2, 2, 3] : List ℚ) 2 : ℚ))
        / (([1, 2, 2, 3] : List ℚ).length : ℚ) * 100)
      = probAbove ([1, 2, 2, 3] : List ℚ) 2 :=
  claim8_prob_above_refinement [1, 2, 2, 3] 2 (by decide) (by decide)

/-- C6 counterexample: on the non-empty ascending-sorted buffer `[0, 10]`, the
summary of `runSimulation` (script.js:389-397) reports median `10`, p05 `0` and
p95 `10` by direct order-statistic indexing, while the linear-interpolation
`percentile` function gives `5`, `1/2` and `19/2` at `p = 0.5, 0.05, 0.95`:
the reported statistics are not the `percentile` operation. -/
theorem claim6_counterexample :
    List.Sorted (· ≤ ·) ([0, 10] : List ℚ) ∧ ([0, 10] : List ℚ) ≠ [] ∧
    (mkSummary (simPriceInputs ℚ roundTripInputs) (5 / 100) (10 / 100) 21 [0, 10]).medianPrice
      = 10 ∧
    percentile ([0, 10] : List ℚ) (1 / 2) = 5 ∧
    (mkSummary (simPriceInputs ℚ roundTripInputs) (5 / 100) (10 / 100) 21 [0, 10]).p05 = 0 ∧
    percentile ([0, 10] : List ℚ) (5 / 100) = 1 / 2 ∧
    (mkSummary (simPriceInputs ℚ roundTripInputs) (5 / 100) (10 / 100) 21 [0, 10]).p95 = 10 ∧
    percentile ([0, 10] : List ℚ) (95 / 100) = 19 / 2 ∧
    (10 : ℚ) ≠ 5 ∧ (0 : ℚ) ≠ 1 / 2 ∧ (10 : ℚ) ≠ 19 / 2 := by
  refine ⟨by decide, by decide, ?_, ?_, ?_, ?_, ?_, ?_, by norm_num, by norm_num, by norm_num⟩
  · norm_num [mkSummary]
  · have hc : ⌈(1 : ℚ) / 2⌉ = 1 := by norm_num [Int.ceil_eq_iff]
    norm_num [percentile, hc]
    decide
  · norm_num [mkSummary]
  · have hc : ⌈(1 : ℚ) / 20⌉ = 1 := by norm_num [Int.ceil_eq_iff]
    norm_num [percentile, hc]
    decide
  · norm_num [mkSummary]
  · have hc : ⌈(19 : ℚ) / 20⌉ = 1 := by norm_num [Int.ceil_eq_iff]
    norm_num [percentile, hc]
    decide

/-- C6 amended: the reported median is the order statistic at index `⌊n/2⌋`
(and p05/p95 those at `⌊0.05·n⌋`, `⌊0.95·n⌋`), not the interpolating
`percentile`; the median agrees with `percentile(buf, 0.5)` exactly when the
buffer length is odd. -/
theorem claim6_amended {K : Type} [LinearOrderedField K] [FloorRing K]
    (P : PriceInputs K) (modeG modeR currentPrice : K) (buf : List K)
    (hodd : buf.length % 2 = 1) :
    (mkSummary P modeG modeR currentPrice buf).medianPrice = percentile buf (1 / 2) := by
  obtain ⟨m, hm⟩ : ∃ m, buf.length = 2 * m + 1 := ⟨buf.length / 2, by omega⟩
  have hne : buf ≠ [] := by
    intro h
    rw [h] at hm
    simp at hm
  simp only [mkSummary, percentile, if_neg hne]
  have hidx : ((buf.length : K) - 1) * (1 / 2) = ((m : ℕ) : K) := by
    rw [hm]
    push_cast
    ring
  rw [hidx, Int.floor_natCast, Int.ceil_natCast]
  have hcond : ¬ ((buf.length : ℤ) ≤ ((m : ℕ) : ℤ)) := by
    rw [hm]
    push_cast
    omega
  rw [if_neg hcond, Int.toNat_natCast]
  have hw : ((m : ℕ) : K) - (((m : ℕ) : ℤ) : K) = 0 := by
    push_cast
    ring
  rw [hw]
  have hg : buf.length / 2 = m := by omega
  rw [hg]
  ring

theorem claim6_amended_witness :
    ([3, 7, 9] : List ℚ).length % 2 = 1 ∧
    (mkSummary (simPriceInputs ℚ roundTripInputs) (5 / 100) (10 / 100) 21 [3, 7, 9]).medianPrice
      = percentile ([3, 7, 9] : List ℚ) (1 / 2) :=
  ⟨by decide,
   claim6_amended (simPriceInputs ℚ roundTripInputs) (5 / 100) (10 / 100) 21 [3, 7, 9] (by decide)⟩

/-- C7: under the precondition `EV_market > 0` — checked once before the loop,
with the run refusing to start (`none`) when `EV_market ≤ 0` — the reverse
driver records both `impliedFcf = EV·(r−g)` and `impliedG = r − fcf0/EV` for
every trial unconditionally: both sequences have full length `trialCount` and
satisfy the formulas at every index (no per-trial discard). -/
theorem claim7_implied_unconditional {K : Type} [LinearOrderedField K]
    (fcf0 EV : K) (pairs : List (K × K)) :
    (EV ≤ 0 → runImplied fcf0 EV pairs = none) ∧
    (0 < EV → ∃ fcfs gs, runImplied fcf0 EV pairs = some (fcfs, gs) ∧
      fcfs.length = pairs.length ∧ gs.length = pairs.length ∧
      ∀ i, i < pairs.length →
        fcfs.getD i 0 = EV * ((pairs.getD i (0, 0)).2 - (pairs.getD i (0, 0)).1) ∧
        gs.getD i 0 = (pairs.getD i (0, 0)).2 - fcf0 / EV) := by
  constructor
  · intro h
    unfold runImplied
    rw [if_pos h]
  · intro h
    refine ⟨pairs.map (fun gr => EV * (gr.2 - gr.1)), pairs.map (fun gr => gr.2 - fcf0 / EV),
      ?_, by simp, by simp, ?_⟩
    · unfold runImplied runImpliedCore
      rw [if_neg (not_le.mpr h)]
    · intro i hi
      have hi1 : i < (pairs.map (fun gr => EV * (gr.2 - gr.1))).length := by simpa using hi
      have hi2 : i < (pairs.map (fun gr => gr.2 - fcf0 / EV)).length := by simpa using hi
      rw [List.getD_eq_getElem _ _ hi1, List.getD_eq_getElem _ _ hi2,
        List.getElem_map, List.getElem_map, List.getD_eq_getElem _ _ hi]
      exact ⟨rfl, rfl⟩

theorem claim7_implied_unconditional_witness :
    ∃ fcfs gs, runImplied (100 : ℚ) 2100 [(5 / 100, 10 / 100)] = some (fcfs, gs) ∧
      fcfs.length = ([((5 : ℚ) / 100, (10 : ℚ) / 100)]).length ∧
      gs.length = ([((5 : ℚ) / 100, (10 : ℚ) / 100)]).length ∧
      ∀ i, i < ([((5 : ℚ) / 100, (10 : ℚ) / 100)]).length →
        fcfs.getD i 0
            = 2100 * ((([((5 : ℚ) / 100, (10 : ℚ) / 100)]).getD i (0, 0)).2
              - (([((5 : ℚ) / 100, (10 : ℚ) / 100)]).getD i (0, 0)).1) ∧
        gs.getD i 0 = (([((5 : ℚ) / 100, (10 : ℚ) / 100)]).getD i (0, 0)).2 - 100 / 2100 :=
  (claim7_implied_unconditional 100 2100 [(5 / 100, 10 / 100)]).2 (by norm_num)

/-- C3 counterexample: at the round-trip inputs, the reverse engine at the pair
`(g, r) = (0.05, 0.10)` yields `impliedFcf = 2100·0.05 = 105` — not within any
reasonable reading of `≈ 100` (the gap is 5) — and
`impliedG = 0.10 − 100/2100 = 11/210 ≈ 0.05238` — not within `0.002` of
`0.05`. -/
theorem claim3_counterexample :
    runImplied ((impliedFcf0 roundTripInputs : ℚ)) (evMarket roundTripInputs)
        [(5 / 100, 10 / 100)]
      = some ([105], [11 / 210]) ∧
    ¬ |(105 : ℚ) - 100| < 1 ∧ ¬ |(11 / 210 : ℚ) - 5 / 100| < 1 / 500 := by
  refine ⟨?_, ?_, ?_⟩
  · norm_num [runImplied, runImpliedCore, impliedFcf0, evMarket, calcFcf0, mean, roundTripInputs]
  · rw [show |(105 : ℚ) - 100| = 5 by norm_num [abs_of_nonneg]]
    norm_num
  · rw [show |(11 / 210 : ℚ) - 5 / 100| = 1 / 420 by norm_num [abs_of_nonneg]]
    norm_num

/-- C3 amended: the forward historical-mode price at
`baseFcf=100, g=0.05, r=0.10, netDebt=0, shares=100` is exactly 21 (and the
trial is kept by the simulation filter); feeding `currentPrice=21, shares=100,
netDebt=0` to the reverse engine at the same pair yields exactly
`impliedFcf = 105 = baseFcf·(1+g)` (the year-one cash flow, not the base 100)
and `impliedG = 11/210 = r − baseFcf/EV ≈ 0.0524` (not `0.05`): the round trip
recovers the inputs only up to the `(1+g)` factor of the forward perpetuity. -/
theorem claim3_round_trip_amended :
    trialResult (simPriceInputs ℚ roundTripInputs) (5 / 100) (10 / 100) = some 21 ∧
    runImplied ((impliedFcf0 roundTripInputs : ℚ)) (evMarket roundTripInputs)
        [(5 / 100, 10 / 100)]
      = some ([105], [11 / 210]) ∧
    (105 : ℚ) = 100 * (1 + 5 / 100) ∧ (11 / 210 : ℚ) = 10 / 100 - 100 / 2100 := by
  refine ⟨?_, ?_, by norm_num, by norm_num⟩
  · norm_num [trialResult, priceCore, jsDiv, simPriceInputs, forwardFcf0, calcFcf0, mean,
      roundTripInputs]
  · norm_num [runImplied, runImpliedCore, impliedFcf0, evMarket, calcFcf0, mean, roundTripInputs]

/-- C2: with a non-empty seed, the RNG stream is the seeded mulberry32 stream —
a deterministic function of the seed string — so two forward runs with
identical inputs produce the identical sequence of uniform deviates and hence
identical sample buffers and summary statistics, regardless of the host
entropy source. -/
theorem claim2_seeded_reproducibility (p : SimInputs) (e1 e2 : Nat → ℝ)
    (hseed : p.seed ≠ []) :
    rngStream p.seed e1 = rngStream p.seed e2 ∧
    runSimulationR p e1 = runSimulationR p e2 := by
  have hstream : rngStream p.seed e1 = rngStream p.seed e2 := by
    unfold rngStream
    rw [if_neg hseed, if_neg hseed]
  refine ⟨hstream, ?_⟩
  unfold runSimulationR
  rw [hstream]

theorem claim2_seeded_reproducibility_witness :
    rngStream seededInputs.seed (fun _ => 0) = rngStream seededInputs.seed (fun _ => 1) ∧
    runSimulationR seededInputs (fun _ => 0) = runSimulationR seededInputs (fun _ => 1) :=
  claim2_seeded_reproducibility seededInputs (fun _ => 0) (fun _ => 1) (by decide)

/-- C10: when the discount rate is fixed, every entry of the reverse driver's
implied-g sequence equals the same constant `rFixed - fcf0/EV_market`,
independent of the sampled growth rate and of the entropy source: the
implied-g distribution is a single point. -/
theorem claim10_fixed_r_constant_impliedG (p : SimInputs) (entropy : Nat → ℝ)
    (hfix : p.rFixedCheck = true) (hEV : 0 < evMarket p) :
    ∃ fcfs gs, runImpliedSimulationR p entropy = some (fcfs, gs) ∧
      gs.length = p.iterations ∧
      ∀ i, i < p.iterations →
        gs.getD i 0 = ((p.rFixed : ℚ) : ℝ) - ((impliedFcf0 p : ℚ) : ℝ) / ((evMarket p : ℚ) : ℝ) := by
  have hEVr : ¬ (((evMarket p : ℚ) : ℝ) ≤ 0) := by
    rw [not_le]
    exact_mod_cast hEV
  unfold runImpliedSimulationR runImplied runImpliedCore
  rw [if_neg hEVr]
  refine ⟨_, _, rfl, by simp [impliedPairs], ?_⟩
  intro i hi
  have hlen : i < ((impliedPairs p (rngStream p.seed entropy)).map
      (fun gr => gr.2 - ((impliedFcf0 p : ℚ) : ℝ) / ((evMarket p : ℚ) : ℝ))).length := by
    simpa [impliedPairs] using hi
  have hlen2 : i < (impliedPairs p (rngStream p.seed entropy)).length := by
    simpa [impliedPairs] using hi
  rw [List.getD_eq_getElem _ _ hlen, List.getElem_map]
  have hip : (impliedPairs p (rngStream p.seed entropy))[i] =
      impliedPair p (rngStream p.seed entropy) i := by
    simp [impliedPairs]
  rw [hip]
  unfold impliedPair
  rw [if_pos hfix]

theorem claim10_fixed_r_constant_impliedG_witness :
    ∃ fcfs gs, runImpliedSimulationR roundTripInputs (fun _ => 0) = some (fcfs, gs) ∧
      gs.length = roundTripInputs.iterations ∧
      ∀ i, i < roundTripInputs.iterations →
        gs.getD i 0 = ((roundTripInputs.rFixed : ℚ) : ℝ)
          - ((impliedFcf0 roundTripInputs : ℚ) : ℝ) / ((evMarket roundTripInputs : ℚ) : ℝ) :=
  claim10_fixed_r_constant_impliedG roundTripInputs (fun _ => 0) rfl
    (by norm_num [evMarket, roundTripInputs])

/-- C9: a forward run whose parameters make every sampled pair fail the
`r - g > 1e-4` test — `g ~ Tri(0.08, 0.10, 0.12)` with `r` fixed at `0.05` —
completes with zero valid trials and reports the dedicated zero-valid-trials
condition: no summary statistics, no crash, no buffer of junk values. -/
theorem claim9_zero_valid_trials (p : SimInputs) (entropy : Nat → ℝ)
    (hg1 : p.gMin = 8 / 100) (hg2 : p.gMode = 10 / 100) (hg3 : p.gMax = 12 / 100)
    (hfix : p.rFixedCheck = true) (hrf : p.rFixed = 5 / 100)
    (hvalid : validInputs p = true)
    (hent : ∀ n, 0 ≤ entropy n ∧ entropy n < 1) :
    runSimulationR p entropy = RunOutcome.zeroValid := by
  have hdev : ∀ n, 0 ≤ rngStream p.seed entropy n ∧ rngStream p.seed entropy n < 1 := by
    intro n
    unfold rngStream
    split
    · exact hent n
    · constructor
      · show (0 : ℝ) ≤ ((mulberryDeviate (seedState p.seed) n : ℚ) : ℝ)
        exact_mod_cast mulberryDeviate_nonneg (seedState p.seed) n
      · show ((mulberryDeviate (seedState p.seed) n : ℚ) : ℝ) < 1
        exact_mod_cast mulberryDeviate_lt_one (seedState p.seed) n
  have hbuf : buildBuffer (simPriceInputs ℝ p) (forwardPairs p (rngStream p.seed entropy)) = [] := by
    unfold buildBuffer
    rw [List.filterMap_eq_nil]
    intro gr hgr
    obtain ⟨i, _, rfl⟩ : ∃ i, i < p.iterations ∧ forwardPair p (rngStream p.seed entropy) i = gr := by
      simpa [forwardPairs] using hgr
    unfold forwardPair
    rw [if_pos hfix]
    have hg : triRandom (p.gMin : ℝ) (p.gMode : ℝ) (p.gMax : ℝ) (rngStream p.seed entropy i)
        ∈ Set.Icc ((p.gMin : ℝ)) ((p.gMax : ℝ)) := by
      refine triRandom_mem _ _ _ _ ?_ ?_ ?_ (hdev i).1 (hdev i).2
      · exact_mod_cast (by rw [hg1, hg2]; norm_num : p.gMin ≤ p.gMode)
      · exact_mod_cast (by rw [hg2, hg3]; norm_num : p.gMode ≤ p.gMax)
      · exact_mod_cast (by rw [hg1, hg3]; norm_num : p.gMin < p.gMax)
    unfold trialResult
    have hmin : ((p.gMin : ℚ) : ℝ) = (8 : ℝ) / 100 := by
      rw [hg1]
      norm_num
    have hrr : ((p.rFixed : ℚ) : ℝ) = (5 : ℝ) / 100 := by
      rw [hrf]
      norm_num
    have hlow : (8 : ℝ) / 100 ≤ triRandom (p.gMin : ℝ) (p.gMode : ℝ) (p.gMax : ℝ)
        (rngStream p.seed entropy i) := hmin ▸ hg.1
    rw [if_pos (by rw [hrr]; linarith)]
  unfold runSimulationR
  rw [hvalid]
  rw [if_neg (by simp : ¬ (true = false))]
  dsimp only
  rw [hbuf]
  rw [if_pos rfl]

theorem claim9_zero_valid_trials_witness :
    runSimulationR zeroValidInputs (fun _ => 0) = RunOutcome.zeroValid :=
  claim9_zero_valid_trials zeroValidInputs (fun _ => 0) rfl rfl rfl rfl rfl
    (by norm_num [validInputs, zeroValidInputs, roundTripInputs])
    (fun n => ⟨le_refl 0, zero_lt_one⟩)
